import Mathlib

/-!
Verification development for `src/FISH_segmentation/Application_Qt/ChromosomePatch.py`.

The Python module is embedded shallowly:
* pure numpy/pixel arithmetic becomes arithmetic over `ℕ`, `ℤ` and `ℚ`
  (uint8 values are naturals `≤ 255`, with wrap-around written `% 256`);
* images are lists of rows (`List (List ℕ)` for one channel,
  `List (List (ℕ × ℕ × ℕ))` for RGB);
* external collaborators that the module only calls
  (`cv2.GaussianBlur`, `cv2.findContours`/`cv2.pointPolygonTest`,
  the YOLO segmentation model) are opaque parameters of the embedded
  functions;
* mutation of the detector object becomes explicit state passing
  (`DetectorState`), and the Python `assert` in `rgba2rgb` becomes
  `Except String`.
-/

namespace FISHSpec

/- Batteries seals the rational field operations; re-opening them lets
concrete runs of the embedded pipeline be checked by `decide`. -/
attribute [local semireducible] Rat.mul Rat.add Rat.sub Rat.inv

/-! ### Generic list helpers -/

/-- Replace the element at position `j` (in-place update of a Python list slot). -/
def modifyAt (f : α → α) : ℕ → List α → List α
  | _, [] => []
  | 0, a :: as => f a :: as
  | n + 1, a :: as => a :: modifyAt f n as

theorem modifyAt_length (f : α → α) : ∀ (j : ℕ) (l : List α),
    (modifyAt f j l).length = l.length
  | _, [] => by simp [modifyAt]
  | 0, _ :: _ => rfl
  | n + 1, _ :: as => by simp [modifyAt, modifyAt_length f n as]

theorem modifyAt_getD_eq (f : α → α) (d : α) :
    ∀ (j : ℕ) (l : List α), j < l.length →
      (modifyAt f j l).getD j d = f (l.getD j d)
  | 0, _ :: _, _ => rfl
  | n + 1, _ :: as, h => by
      simp only [modifyAt, List.getD_cons_succ]
      exact modifyAt_getD_eq f d n as (Nat.lt_of_succ_lt_succ h)

theorem modifyAt_getD_ne (f : α → α) (d : α) :
    ∀ (j i : ℕ) (l : List α), i ≠ j →
      (modifyAt f j l).getD i d = l.getD i d
  | _, _, [], _ => by simp [modifyAt]
  | 0, 0, _ :: _, h => absurd rfl h
  | 0, i + 1, _ :: _, _ => rfl
  | _ + 1, 0, _ :: _, _ => rfl
  | j + 1, i + 1, a :: as, h => by
      simp only [modifyAt, List.getD_cons_succ]
      exact modifyAt_getD_ne f d j i as (fun hij => h (by rw [hij]))

/-! ### uint8 arithmetic and rounding

`numpy` stores the image as `uint8`; casting a signed integer to `uint8`
wraps modulo 256, and `np.round` rounds halves to the nearest even
integer (banker's rounding). -/

/-- `.astype(np.uint8)` applied to an integer value. -/
def toUInt8Z (z : ℤ) : ℕ := (z % 256).toNat

/-- `np.round`: round half to even. -/
def roundHalfEven (q : ℚ) : ℤ :=
  if q - ⌊q⌋ < 1 / 2 then ⌊q⌋
  else if 1 / 2 < q - ⌊q⌋ then ⌊q⌋ + 1
  else if ⌊q⌋ % 2 = 0 then ⌊q⌋ else ⌊q⌋ + 1

/-- The clamp `np.minimum(np.maximum(s, 0), 255)` from `__unsharp_mask`
(maximum with zeros first, then minimum with 255). -/
def clamp255 (q : ℚ) : ℚ := min 255 (max 0 q)

theorem roundHalfEven_mem (q : ℚ) :
    roundHalfEven q = ⌊q⌋ ∨ roundHalfEven q = ⌊q⌋ + 1 := by
  unfold roundHalfEven
  split_ifs <;> simp

theorem roundHalfEven_nonneg {q : ℚ} (h : 0 ≤ q) : 0 ≤ roundHalfEven q := by
  have hf : (0 : ℤ) ≤ ⌊q⌋ := Int.floor_nonneg.mpr h
  rcases roundHalfEven_mem q with hm | hm <;> rw [hm] <;> omega

theorem roundHalfEven_le_255 {q : ℚ} (h : q ≤ 255) : roundHalfEven q ≤ 255 := by
  have hf : ⌊q⌋ ≤ (255 : ℤ) := by
    have : ⌊q⌋ ≤ ⌊(255 : ℚ)⌋ := Int.floor_le_floor h
    simpa using this
  unfold roundHalfEven
  split_ifs with h1 h2 h3
  · omega
  · -- fractional part at least 1/2, so the floor is at most 254
    have hr : (1 : ℚ) / 2 ≤ q - ⌊q⌋ := le_of_not_lt h1
    have hlt : (⌊q⌋ : ℚ) < 255 := by linarith
    have : ⌊q⌋ < (255 : ℤ) := by exact_mod_cast hlt
    omega
  · omega
  · have hr : (1 : ℚ) / 2 ≤ q - ⌊q⌋ := le_of_not_lt h1
    have hlt : (⌊q⌋ : ℚ) < 255 := by linarith
    have : ⌊q⌋ < (255 : ℤ) := by exact_mod_cast hlt
    omega

/-! ### `__unsharp_mask` (per pixel)

`cv2.GaussianBlur` is an external collaborator: the blurred value of a
pixel is an opaque input `b`.  The remaining arithmetic of
`ChromosomeCellDetector.__unsharp_mask` is exact per pixel:

* `sharpened = float(amount+1)*image - float(amount)*blurred` promotes to
  float, is clamped to `[0, 255]`, rounded and cast back to uint8;
* `np.absolute(image - blurred)` subtracts the two *uint8* arrays, which
  wraps modulo 256 (and `np.absolute` is the identity on uint8), so the
  low-contrast mask is `(i - b) mod 256 < threshold`;
* `np.copyto(sharpened, image, where=low_contrast_mask)` restores the
  original pixel where the mask holds. -/

def sharpen_pixel (amount : ℚ) (i b : ℕ) : ℕ :=
  toUInt8Z (roundHalfEven (clamp255 ((amount + 1) * i - amount * b)))

def unsharp_mask_pixel (amount : ℚ) (threshold i b : ℕ) : ℕ :=
  let sharpened := sharpen_pixel amount i b
  if 0 < threshold ∧ (i + 256 - b) % 256 < threshold then i else sharpened

theorem sharpen_pixel_le_255 (amount : ℚ) (i b : ℕ) :
    sharpen_pixel amount i b ≤ 255 := by
  unfold sharpen_pixel toUInt8Z
  set q := clamp255 ((amount + 1) * i - amount * b) with hq
  have h0 : 0 ≤ q := by
    rw [hq]; unfold clamp255; exact le_min (by norm_num) (le_max_left 0 _)
  have hub : q ≤ 255 := by
    rw [hq]; unfold clamp255; exact min_le_left _ _
  have hr0 : 0 ≤ roundHalfEven q := roundHalfEven_nonneg h0
  have hr255 : roundHalfEven q ≤ 255 := roundHalfEven_le_255 hub
  have hmod : roundHalfEven q % 256 = roundHalfEven q := Int.emod_eq_of_lt hr0 (by omega)
  rw [hmod]
  omega

/-! ### Single-channel images (`np.ndarray` of uint8, row-major) -/

/-- One channel of an image: a list of rows of pixel values. -/
abbrev Grid := List (List ℕ)

/-- Row lookup; out of range gives the empty row. -/
def getRow : List (List ℕ) → ℕ → List ℕ
  | [], _ => []
  | row :: _, 0 => row
  | _ :: rest, n + 1 => getRow rest n

/-- Pixel lookup inside a row; out of range gives 0. -/
def rowGet : List ℕ → ℕ → ℕ
  | [], _ => 0
  | v :: _, 0 => v
  | _ :: vs, n + 1 => rowGet vs n

/-- Pixel value at `(r, c)`; out of range gives 0 (background). -/
def gridGet (g : Grid) (r c : ℕ) : ℕ := rowGet (getRow g r) c

/-- `cv2.threshold(image, thresh, maxval, cv2.THRESH_BINARY)`:
`maxval` where the source value strictly exceeds `thresh`, else 0. -/
def threshold_binary (thresh maxval : ℕ) (g : Grid) : Grid :=
  g.map (List.map (fun v => if thresh < v then maxval else 0))

/-- The nine offsets of the 3×3 rectangular structuring element
(`cv2.getStructuringElement(cv2.MORPH_RECT, (3, 3))`). -/
def offsets3 : List (ℤ × ℤ) :=
  [(-1, -1), (-1, 0), (-1, 1), (0, -1), (0, 0), (0, 1), (1, -1), (1, 0), (1, 1)]

/-- The in-bounds pixel values in the 3×3 neighbourhood of `(r, c)`. -/
def nbhdVals (g : Grid) (r c : ℕ) : List ℕ :=
  offsets3.filterMap (fun o =>
    let rr := (r : ℤ) + o.1
    let cc := (c : ℤ) + o.2
    if 0 ≤ rr ∧ rr < (g.length : ℤ) ∧ 0 ≤ cc ∧ cc < ((getRow g rr.toNat).length : ℤ)
    then some (gridGet g rr.toNat cc.toNat) else none)

/-- Grayscale dilation with the 3×3 element (out-of-image treated as −∞,
OpenCV's default border for dilation). -/
def dilate_px (g : Grid) (r c : ℕ) : ℕ := (nbhdVals g r c).foldl max 0

/-- Grayscale erosion with the 3×3 element (out-of-image treated as +∞,
i.e. 255 for uint8, OpenCV's default border for erosion). -/
def erode_px (g : Grid) (r c : ℕ) : ℕ := (nbhdVals g r c).foldl min 255

/-- Rebuild a grid of the same shape from a per-position function. -/
def mapIdxGrid (f : ℕ → ℕ → ℕ) (g : Grid) : Grid :=
  (List.range g.length).map (fun r =>
    (List.range (getRow g r).length).map (fun c => f r c))

/-- `cv2.morphologyEx(thresh, cv2.MORPH_GRADIENT, kernel)`:
dilation minus erosion, pointwise. -/
def morph_gradient (g : Grid) : Grid :=
  mapIdxGrid (fun r c => dilate_px g r c - erode_px g r c) g

/-! ### Connected-component labeling
(`skimage.measure.label(morph, background=0, return_num=True, connectivity=1)`)

`connectivity=1` is 4-connectivity.  Labels `1, 2, …` are assigned in
raster-scan order of the first pixel of each component; the labeling is
computed by a fuel-bounded flood fill (the fuel `5 * size + 5` exceeds
the number of worklist operations any fill can perform). -/

/-- A zero label grid of the same shape as `g`. -/
def zerosLike (g : Grid) : Grid := g.map (List.map (fun _ => 0))

/-- The 4-neighbours of `(r, c)` (with ℕ truncation at the image edge;
a truncated coordinate re-visits an already labeled pixel, a no-op). -/
def neighbors4 (r c : ℕ) : List (ℕ × ℕ) :=
  [(r + 1, c), (r - 1, c), (r, c + 1), (r, c - 1)]

/-- Write value `v` at `(r, c)`. -/
def setGrid (g : Grid) (r c v : ℕ) : Grid :=
  modifyAt (fun row => modifyAt (fun _ => v) c row) r g

/-- Flood fill of label `k` over the foreground pixels of `g`. -/
def flood_fill (g : Grid) (k : ℕ) : ℕ → List (ℕ × ℕ) → Grid → Grid
  | 0, _, lbl => lbl
  | _ + 1, [], lbl => lbl
  | fuel + 1, (r, c) :: stack, lbl =>
    if gridGet g r c ≠ 0 ∧ gridGet lbl r c = 0 then
      flood_fill g k fuel (neighbors4 r c ++ stack) (setGrid lbl r c k)
    else
      flood_fill g k fuel stack lbl

/-- Total number of pixels of the grid. -/
def gridSize (g : Grid) : ℕ := (g.map List.length).sum

/-- All positions of the grid in raster-scan order. -/
def allPositions (g : Grid) : List (ℕ × ℕ) :=
  (List.range g.length).flatMap (fun r =>
    (List.range (getRow g r).length).map (fun c => (r, c)))

/-- Raster scan: start a flood fill at every yet-unlabeled foreground
pixel, counting the components found. -/
def label_scan (g : Grid) : List (ℕ × ℕ) → Grid → ℕ → Grid × ℕ
  | [], lbl, num => (lbl, num)
  | (r, c) :: rest, lbl, num =>
    if gridGet g r c ≠ 0 ∧ gridGet lbl r c = 0 then
      label_scan g rest
        (flood_fill g (num + 1) (5 * gridSize g + 5) [(r, c)] lbl) (num + 1)
    else
      label_scan g rest lbl num

/-- `skimage.measure.label(g, background=0, return_num=True, connectivity=1)`. -/
def label_components (g : Grid) : Grid × ℕ :=
  label_scan g (allPositions g) (zerosLike g) 0

/-! ### Centroids (`scipy.ndimage.center_of_mass(labels, labels, range(1, num+1))`) -/

/-- All positions carrying label `i`. -/
def positionsWithLabel (lbls : Grid) (i : ℕ) : List (ℕ × ℕ) :=
  (allPositions lbls).filter (fun p => gridGet lbls p.1 p.2 = i)

/-- Center of mass of the region labeled `i`, weighted by the values of
`inp` (the Python passes the label image itself as `inp`). -/
def center_of_mass (inp lbls : Grid) (i : ℕ) : ℚ × ℚ :=
  let pts := positionsWithLabel lbls i
  let m : ℚ := (pts.map (fun p => ((gridGet inp p.1 p.2 : ℚ)))).sum
  (((pts.map (fun p => (gridGet inp p.1 p.2 : ℚ) * p.1)).sum) / m,
   ((pts.map (fun p => (gridGet inp p.1 p.2 : ℚ) * p.2)).sum) / m)

/-- `ChromosomeCellDetector.__get_chromosome_candidates`: threshold at
100, morphological gradient, 4-connected labeling, one centroid per
label in label order. -/
def get_chromosome_candidates (image : Grid) : List (ℚ × ℚ) :=
  let thresh := threshold_binary 100 255 image
  let morph := morph_gradient thresh
  let lb := label_components morph
  (List.range lb.2).map (fun j => center_of_mass lb.1 lb.1 (j + 1))

/-! ### The `Cell` data model -/

/-- `Cell.CellType`: `EXPLODED = 0`, `WHOLE = 1`. -/
inductive CellType where
  | EXPLODED
  | WHOLE
deriving DecidableEq

/-- `Cell.CellType(value)` — the enum constructor; any value other than
0 or 1 raises `ValueError`, modeled as `none`. -/
def CellType.ofValue : ℕ → Option CellType
  | 0 => some .EXPLODED
  | 1 => some .WHOLE
  | _ + 2 => none

/-- A detected cell.  `masked_area` stands for the numpy masked array
carrying the cell's boolean mask; its type `ν` is abstract because the
mask is only ever consumed by the opaque OpenCV contour/geometry
routines. -/
structure Cell (ν : Type) where
  masked_area : ν
  cell_type : CellType
  red_chromosomes : List (ℚ × ℚ)
  green_chromosomes : List (ℚ × ℚ)
deriving DecidableEq

def Cell.add_red_chromosome (p : ℚ × ℚ) (c : Cell ν) : Cell ν :=
  { c with red_chromosomes := c.red_chromosomes ++ [p] }

def Cell.add_green_chromosome (p : ℚ × ℚ) (c : Cell ν) : Cell ν :=
  { c with green_chromosomes := c.green_chromosomes ++ [p] }

/-! ### `ChromosomeCellDetector.__filter_chromosomes`

The geometric primitive
`cv2.pointPolygonTest(contour(mask), candidate[::-1], measureDist=True)`
is an external collaborator; it is modeled by an opaque parameter
`dist : ν → ℚ × ℚ → ℚ` giving the signed distance of a point — supplied
in `(col, row)` order, hence the swap — to the first outer contour of
the cell's mask (positive inside, negative outside, zero on the
boundary). -/

/-- The inner `for cell in self.cells` loop for one candidate: the flag
`acc` is `accepted[idx]`, `rc`/`gc` are the class-level counters
`RedChromosome`/`GreenChromosome`.  On acceptance the point is appended
to the matching per-cell list, the matching counter is incremented and
the loop `break`s (the remaining cells are returned unchanged). -/
def scan_cells (dist : ν → ℚ × ℚ → ℚ) (closeness : ℚ) (chromosome_type : String)
    (candidate : ℚ × ℚ) :
    List (Cell ν) → Bool → ℕ → ℕ → List (Cell ν) × Bool × ℕ × ℕ
  | [], acc, rc, gc => ([], acc, rc, gc)
  | cell :: rest, acc, rc, gc =>
    let distance := dist cell.masked_area (candidate.2, candidate.1)
    let inside_cell := decide (0 < distance)
    let almost_on_cell_border := decide (distance ≤ closeness)
    if !acc && inside_cell && !almost_on_cell_border then
      if chromosome_type = "red" then
        (Cell.add_red_chromosome candidate cell :: rest, true, rc + 1, gc)
      else if chromosome_type = "green" then
        (Cell.add_green_chromosome candidate cell :: rest, true, rc, gc + 1)
      else
        (cell :: rest, true, rc, gc)
    else
      let out := scan_cells dist closeness chromosome_type candidate rest acc rc gc
      (cell :: out.1, out.2)

/-- `__filter_chromosomes(chromosome_candidates, chromosome_type, closeness)`:
each candidate starts with a fresh `accepted[idx] = False` flag; the
result is the updated registry together with the two counters. -/
def filter_chromosomes (dist : ν → ℚ × ℚ → ℚ) (closeness : ℚ)
    (chromosome_type : String) (chromosome_candidates : List (ℚ × ℚ))
    (cells : List (Cell ν)) (rc gc : ℕ) : List (Cell ν) × ℕ × ℕ :=
  chromosome_candidates.foldl
    (fun st p =>
      let out := scan_cells dist closeness chromosome_type p st.1 false st.2.1 st.2.2
      (out.1, out.2.2))
    (cells, rc, gc)

/-! ### `ChromosomeCellDetector.detect_chromosomes` -/

/-- An RGB image: rows of `(red, green, blue)` uint8 pixels. -/
abbrev RGBImage := List (List (ℕ × ℕ × ℕ))

/-- Channel extraction `unsharped_image[..., k]`. -/
def channel (k : ℕ) (img : RGBImage) : Grid :=
  img.map (List.map (fun px => if k = 0 then px.1 else if k = 1 then px.2.1 else px.2.2))

def unsharp_mask_rgb (amount : ℚ) (threshold : ℕ) (ip bp : ℕ × ℕ × ℕ) : ℕ × ℕ × ℕ :=
  (unsharp_mask_pixel amount threshold ip.1 bp.1,
   unsharp_mask_pixel amount threshold ip.2.1 bp.2.1,
   unsharp_mask_pixel amount threshold ip.2.2 bp.2.2)

/-- `__unsharp_mask` lifted to whole images; the Gaussian-blurred image
is an explicit argument (`cv2.GaussianBlur` is external, the kernel size
and sigma are folded into the opaque blur). -/
def unsharp_mask (amount : ℚ) (threshold : ℕ) (img blurred : RGBImage) : RGBImage :=
  List.zipWith (fun r1 r2 => List.zipWith (unsharp_mask_rgb amount threshold) r1 r2)
    img blurred

/-- The mutable state of a `ChromosomeCellDetector` instance together
with the two class-level counters. -/
structure DetectorState (ν : Type) where
  image : RGBImage
  cells : List (Cell ν)
  RedChromosome : ℕ
  GreenChromosome : ℕ
deriving DecidableEq

/-- `detect_chromosomes(self)`: unsharp-mask the image
(kernel 5×5, sigma 5.0, amount 5.0, threshold 100), extract candidates
from the red and green channels, reset both class counters to zero and
run the two filtering passes with closeness 1.0. -/
def detect_chromosomes (dist : ν → ℚ × ℚ → ℚ) (blur : RGBImage → RGBImage)
    (s : DetectorState ν) : DetectorState ν :=
  let unsharped_image := unsharp_mask 5 100 s.image (blur s.image)
  let red_channel := channel 0 unsharped_image
  let green_channel := channel 1 unsharped_image
  let red_chromosome_candidates := get_chromosome_candidates red_channel
  let green_chromosome_candidates := get_chromosome_candidates green_channel
  let closeness : ℚ := 1
  let st1 := filter_chromosomes dist closeness "red" red_chromosome_candidates
    s.cells 0 0
  let st2 := filter_chromosomes dist closeness "green" green_chromosome_candidates
    st1.1 st1.2.1 st1.2.2
  { image := s.image, cells := st2.1,
    RedChromosome := st2.2.1, GreenChromosome := st2.2.2 }

/-! ### `ChromosomeCellDetector.find_cells`

The YOLO model is the external Segmentation Oracle: its output is a
list of predictions, each a list of detections `(mask, classId)` (the
zip of `prediction.masks` with `prediction.boxes.cls`).  The resize of
a mask to the image shape and the construction of the masked array
(`cv2.resize`, `np.ma.masked_where`) are combined into the opaque
parameter `maskOf`; the model's `names` table is the opaque parameter
`names`. -/

structure Detection (μ : Type) where
  mask : μ
  cls : ℕ

structure Prediction (μ : Type) where
  dets : List (Detection μ)

/-- The cell-building loop body: each detection yields a fresh `Cell`
with empty chromosome lists; an out-of-range class id raises
`ValueError` (modeled as `none`). -/
def build_cells (maskOf : μ → ν) : List (Detection μ) → Option (List (Cell ν))
  | [] => some []
  | d :: rest =>
    match CellType.ofValue d.cls, build_cells maskOf rest with
    | some t, some cs =>
        some ({ masked_area := maskOf d.mask, cell_type := t,
                red_chromosomes := [], green_chromosomes := [] } :: cs)
    | _, _ => none

/-- `find_cells(self, confidence)`: clear the previous registry
(`if self.cells: self.cells.clear()`), build one cell per detection,
and return the `(number_explode, number_whole)` tally computed from the
model's `names` table. -/
def find_cells (maskOf : μ → ν) (names : ℕ → String) (prior : List (Cell ν))
    (predictions : List (Prediction μ)) : Option (List (Cell ν) × ℕ × ℕ) :=
  let cleared : List (Cell ν) := if prior.isEmpty then prior else []
  let dets := predictions.flatMap (fun p => p.dets)
  match build_cells maskOf dets with
  | none => none
  | some newCells =>
    let cells := cleared ++ newCells
    let number_whole := (dets.filter (fun d => names d.cls = "Whole cell")).length
    let number_explode := (dets.filter (fun d => names d.cls = "Explode cell")).length
    some (cells, number_explode, number_whole)

/-! ### `ChromosomeCellDetector.rgba2rgb`

Pixels of the input raster are lists of channel values (length = the
`ch` axis of `rgba.shape`).  The float32 compositing arithmetic is
exact on the values reasoned about here and is modeled over `ℚ`; the
final `np.asarray(rgb, dtype='uint8')` truncates toward zero and wraps
modulo 256. -/

/-- Float-to-uint8 conversion (truncation, then wrap). -/
def f2u8 (q : ℚ) : ℕ := ((⌊q⌋ : ℤ) % 256).toNat

/-- Alpha-composite one RGBA pixel onto the background color. -/
def composite_pixel (background : ℕ × ℕ × ℕ) (px : List ℕ) : List ℕ :=
  let r : ℚ := px.getD 0 0
  let g : ℚ := px.getD 1 0
  let b : ℚ := px.getD 2 0
  let a : ℚ := (px.getD 3 0 : ℚ) / 255
  [f2u8 (r * a + (1 - a) * background.1),
   f2u8 (g * a + (1 - a) * background.2.1),
   f2u8 (b * a + (1 - a) * background.2.2)]

/-- `rgba2rgb(self, rgba, background=(255, 255, 255))`: 3-channel input
is returned unchanged; 4-channel input is alpha-composited; any other
channel count fails the `assert ch == 4, 'RGBA image has 4 channels.'`. -/
def rgba2rgb (background : ℕ × ℕ × ℕ) (ch : ℕ) (rgba : List (List (List ℕ))) :
    Except String (List (List (List ℕ))) :=
  if ch = 3 then .ok rgba
  else if ch = 4 then
    .ok (rgba.map (fun row => row.map (composite_pixel background)))
  else .error "RGBA image has 4 channels."

/-! ### First-match characterization of the assigner -/

/-- The acceptance test of the inner loop:
`distance > 0 and not (distance <= closeness)`. -/
def eligibleB (dist : ν → ℚ × ℚ → ℚ) (closeness : ℚ) (p : ℚ × ℚ) (c : Cell ν) : Bool :=
  decide (0 < dist c.masked_area (p.2, p.1)) &&
    !(decide (dist c.masked_area (p.2, p.1) ≤ closeness))

/-- Index of the first cell, in registry order, eligible for `p`. -/
def firstEligible (dist : ν → ℚ × ℚ → ℚ) (closeness : ℚ) (p : ℚ × ℚ) :
    List (Cell ν) → Option ℕ
  | [] => none
  | c :: rest =>
    if eligibleB dist closeness p c then some 0
    else (firstEligible dist closeness p rest).map (· + 1)

theorem eligibleB_congr (dist : ν → ℚ × ℚ → ℚ) (closeness : ℚ) (p : ℚ × ℚ)
    {c1 c2 : Cell ν} (h : c1.masked_area = c2.masked_area) :
    eligibleB dist closeness p c1 = eligibleB dist closeness p c2 := by
  simp [eligibleB, h]

theorem firstEligible_lt_length (dist : ν → ℚ × ℚ → ℚ) (closeness : ℚ) (p : ℚ × ℚ) :
    ∀ (cells : List (Cell ν)) (j : ℕ),
      firstEligible dist closeness p cells = some j → j < cells.length
  | [], j => by simp [firstEligible]
  | c :: rest, j => by
    simp only [firstEligible]
    split
    · intro h
      cases h
      simp
    · intro h
      rcases Option.map_eq_some'.mp h with ⟨j0, hj0, rfl⟩
      have := firstEligible_lt_length dist closeness p rest j0 hj0
      simpa [Nat.succ_lt_succ_iff] using this

theorem firstEligible_eligibleB (dist : ν → ℚ × ℚ → ℚ) (closeness : ℚ) (p : ℚ × ℚ)
    (d0 : Cell ν) :
    ∀ (cells : List (Cell ν)) (j : ℕ),
      firstEligible dist closeness p cells = some j →
      eligibleB dist closeness p (cells.getD j d0) = true
  | [], j => by simp [firstEligible]
  | c :: rest, j => by
    simp only [firstEligible]
    split
    · intro h
      cases h
      simpa
    · intro h
      rcases Option.map_eq_some'.mp h with ⟨j0, hj0, rfl⟩
      simpa using firstEligible_eligibleB dist closeness p d0 rest j0 hj0

theorem firstEligible_modifyAt (dist : ν → ℚ × ℚ → ℚ) (closeness : ℚ) (p : ℚ × ℚ)
    (f : Cell ν → Cell ν) (hmask : ∀ c, (f c).masked_area = c.masked_area) :
    ∀ (j : ℕ) (cells : List (Cell ν)),
      firstEligible dist closeness p (modifyAt f j cells) =
        firstEligible dist closeness p cells
  | _, [] => by simp [modifyAt]
  | 0, c :: rest => by
    simp only [modifyAt, firstEligible, eligibleB_congr dist closeness p (hmask c)]
  | j + 1, c :: rest => by
    simp only [modifyAt, firstEligible,
      firstEligible_modifyAt dist closeness p f hmask j rest]

theorem scan_cells_red_eq (dist : ν → ℚ × ℚ → ℚ) (closeness : ℚ) (p : ℚ × ℚ) :
    ∀ (cells : List (Cell ν)) (rc gc : ℕ),
      scan_cells dist closeness "red" p cells false rc gc =
        match firstEligible dist closeness p cells with
        | none => (cells, false, rc, gc)
        | some j => (modifyAt (Cell.add_red_chromosome p) j cells, true, rc + 1, gc)
  | [], rc, gc => by simp [scan_cells, firstEligible]
  | c :: rest, rc, gc => by
    by_cases h : eligibleB dist closeness p c = true
    · have h1 : 0 < dist c.masked_area (p.2, p.1) := by
        have hh := h
        simp only [eligibleB, Bool.and_eq_true, decide_eq_true_eq,
          Bool.not_eq_true', decide_eq_false_iff_not] at hh
        exact hh.1
      have h2 : ¬ dist c.masked_area (p.2, p.1) ≤ closeness := by
        have hh := h
        simp only [eligibleB, Bool.and_eq_true, decide_eq_true_eq,
          Bool.not_eq_true', decide_eq_false_iff_not] at hh
        exact hh.2
      simp [scan_cells, firstEligible, eligibleB, h1, h2, modifyAt]
    · have hfalse : eligibleB dist closeness p c = false := by simpa using h
      rw [show (firstEligible dist closeness p (c :: rest)) =
          (firstEligible dist closeness p rest).map (· + 1) by
        simp [firstEligible, hfalse]]
      simp only [scan_cells, Bool.not_false, Bool.true_and]
      have hcond : (decide (0 < dist c.masked_area (p.2, p.1)) &&
          !decide (dist c.masked_area (p.2, p.1) ≤ closeness)) = false := by
        simpa [eligibleB] using hfalse
      rw [hcond]
      simp only [Bool.false_eq_true, if_false]
      rw [scan_cells_red_eq dist closeness p rest rc gc]
      cases firstEligible dist closeness p rest <;> simp [modifyAt]

theorem scan_cells_green_eq (dist : ν → ℚ × ℚ → ℚ) (closeness : ℚ) (p : ℚ × ℚ) :
    ∀ (cells : List (Cell ν)) (rc gc : ℕ),
      scan_cells dist closeness "green" p cells false rc gc =
        match firstEligible dist closeness p cells with
        | none => (cells, false, rc, gc)
        | some j => (modifyAt (Cell.add_green_chromosome p) j cells, true, rc, gc + 1)
  | [], rc, gc => by simp [scan_cells, firstEligible]
  | c :: rest, rc, gc => by
    by_cases h : eligibleB dist closeness p c = true
    · have h1 : 0 < dist c.masked_area (p.2, p.1) := by
        have hh := h
        simp only [eligibleB, Bool.and_eq_true, decide_eq_true_eq,
          Bool.not_eq_true', decide_eq_false_iff_not] at hh
        exact hh.1
      have h2 : ¬ dist c.masked_area (p.2, p.1) ≤ closeness := by
        have hh := h
        simp only [eligibleB, Bool.and_eq_true, decide_eq_true_eq,
          Bool.not_eq_true', decide_eq_false_iff_not] at hh
        exact hh.2
      simp [scan_cells, firstEligible, eligibleB, h1, h2, modifyAt]
    · have hfalse : eligibleB dist closeness p c = false := by simpa using h
      rw [show (firstEligible dist closeness p (c :: rest)) =
          (firstEligible dist closeness p rest).map (· + 1) by
        simp [firstEligible, hfalse]]
      simp only [scan_cells, Bool.not_false, Bool.true_and]
      have hcond : (decide (0 < dist c.masked_area (p.2, p.1)) &&
          !decide (dist c.masked_area (p.2, p.1) ≤ closeness)) = false := by
        simpa [eligibleB] using hfalse
      rw [hcond]
      simp only [Bool.false_eq_true, if_false]
      rw [scan_cells_green_eq dist closeness p rest rc gc]
      cases firstEligible dist closeness p rest <;> simp [modifyAt]

theorem filter_chromosomes_cons (dist : ν → ℚ × ℚ → ℚ) (closeness : ℚ)
    (t : String) (p : ℚ × ℚ) (rest : List (ℚ × ℚ)) (cells : List (Cell ν))
    (rc gc : ℕ) :
    filter_chromosomes dist closeness t (p :: rest) cells rc gc =
      filter_chromosomes dist closeness t rest
        (scan_cells dist closeness t p cells false rc gc).1
        (scan_cells dist closeness t p cells false rc gc).2.2.1
        (scan_cells dist closeness t p cells false rc gc).2.2.2 := rfl

theorem scan_cells_length (dist : ν → ℚ × ℚ → ℚ) (closeness : ℚ) (t : String)
    (p : ℚ × ℚ) : ∀ (cells : List (Cell ν)) (acc : Bool) (rc gc : ℕ),
      (scan_cells dist closeness t p cells acc rc gc).1.length = cells.length
  | [], _, _, _ => rfl
  | c :: rest, acc, rc, gc => by
    simp only [scan_cells]
    split
    · split
      · simp
      · split
        · simp
        · simp
    · simpa using scan_cells_length dist closeness t p rest acc rc gc

theorem filter_chromosomes_length (dist : ν → ℚ × ℚ → ℚ) (closeness : ℚ)
    (t : String) : ∀ (cands : List (ℚ × ℚ)) (cells : List (Cell ν)) (rc gc : ℕ),
      (filter_chromosomes dist closeness t cands cells rc gc).1.length = cells.length
  | [], _, _, _ => rfl
  | p :: rest, cells, rc, gc => by
    rw [filter_chromosomes_cons,
      filter_chromosomes_length dist closeness t rest _ _ _,
      scan_cells_length]

theorem filter_chromosomes_nil_cells (dist : ν → ℚ × ℚ → ℚ) (closeness : ℚ)
    (t : String) : ∀ (cands : List (ℚ × ℚ)) (rc gc : ℕ),
      filter_chromosomes dist closeness t cands [] rc gc = ([], rc, gc)
  | [], _, _ => rfl
  | p :: rest, rc, gc => by
    rw [filter_chromosomes_cons]
    exact filter_chromosomes_nil_cells dist closeness t rest rc gc

/-- After the red pass, cell `i` is the original cell with exactly the
candidates whose first eligible cell is `i` appended, in order, to its
red list. -/
theorem filter_red_getD (dist : ν → ℚ × ℚ → ℚ) (closeness : ℚ) (d0 : Cell ν) :
    ∀ (cands : List (ℚ × ℚ)) (cells : List (Cell ν)) (rc gc i : ℕ),
      i < cells.length →
      (filter_chromosomes dist closeness "red" cands cells rc gc).1.getD i d0 =
        { cells.getD i d0 with
          red_chromosomes := (cells.getD i d0).red_chromosomes ++
            cands.filter
              (fun p => decide (firstEligible dist closeness p cells = some i)) }
  | [], cells, rc, gc, i, hi => by
    simp [filter_chromosomes]
  | p :: rest, cells, rc, gc, i, hi => by
    rw [filter_chromosomes_cons, scan_cells_red_eq]
    cases hfe : firstEligible dist closeness p cells with
    | none =>
      rw [filter_red_getD dist closeness d0 rest cells rc gc i hi]
      simp [List.filter_cons, hfe]
    | some j =>
      have hj : j < cells.length := firstEligible_lt_length dist closeness p cells j hfe
      have hlen : i < (modifyAt (Cell.add_red_chromosome p) j cells).length := by
        rw [modifyAt_length]; exact hi
      rw [filter_red_getD dist closeness d0 rest _ _ _ i hlen]
      have hstab : ∀ q : ℚ × ℚ,
          firstEligible dist closeness q (modifyAt (Cell.add_red_chromosome p) j cells) =
            firstEligible dist closeness q cells :=
        fun q => firstEligible_modifyAt dist closeness q
          (Cell.add_red_chromosome p) (fun _ => rfl) j cells
      have hfilter :
          rest.filter (fun q => decide (firstEligible dist closeness q
              (modifyAt (Cell.add_red_chromosome p) j cells) = some i)) =
          rest.filter (fun q => decide (firstEligible dist closeness q cells = some i)) := by
        apply List.filter_congr
        intro q _
        rw [hstab q]
      rw [hfilter]
      by_cases hij : i = j
      · subst hij
        rw [modifyAt_getD_eq _ _ _ _ hj]
        simp [Cell.add_red_chromosome, List.filter_cons, hfe, List.append_assoc]
      · rw [modifyAt_getD_ne _ _ _ _ _ hij]
        have hji : ¬ j = i := fun hh => hij hh.symm
        simp [List.filter_cons, hfe, hij, hji]

/-- Green-pass analogue of `filter_red_getD`. -/
theorem filter_green_getD (dist : ν → ℚ × ℚ → ℚ) (closeness : ℚ) (d0 : Cell ν) :
    ∀ (cands : List (ℚ × ℚ)) (cells : List (Cell ν)) (rc gc i : ℕ),
      i < cells.length →
      (filter_chromosomes dist closeness "green" cands cells rc gc).1.getD i d0 =
        { cells.getD i d0 with
          green_chromosomes := (cells.getD i d0).green_chromosomes ++
            cands.filter
              (fun p => decide (firstEligible dist closeness p cells = some i)) }
  | [], cells, rc, gc, i, hi => by
    simp [filter_chromosomes]
  | p :: rest, cells, rc, gc, i, hi => by
    rw [filter_chromosomes_cons, scan_cells_green_eq]
    cases hfe : firstEligible dist closeness p cells with
    | none =>
      rw [filter_green_getD dist closeness d0 rest cells rc gc i hi]
      simp [List.filter_cons, hfe]
    | some j =>
      have hj : j < cells.length := firstEligible_lt_length dist closeness p cells j hfe
      have hlen : i < (modifyAt (Cell.add_green_chromosome p) j cells).length := by
        rw [modifyAt_length]; exact hi
      rw [filter_green_getD dist closeness d0 rest _ _ _ i hlen]
      have hstab : ∀ q : ℚ × ℚ,
          firstEligible dist closeness q (modifyAt (Cell.add_green_chromosome p) j cells) =
            firstEligible dist closeness q cells :=
        fun q => firstEligible_modifyAt dist closeness q
          (Cell.add_green_chromosome p) (fun _ => rfl) j cells
      have hfilter :
          rest.filter (fun q => decide (firstEligible dist closeness q
              (modifyAt (Cell.add_green_chromosome p) j cells) = some i)) =
          rest.filter (fun q => decide (firstEligible dist closeness q cells = some i)) := by
        apply List.filter_congr
        intro q _
        rw [hstab q]
      rw [hfilter]
      by_cases hij : i = j
      · subst hij
        rw [modifyAt_getD_eq _ _ _ _ hj]
        simp [Cell.add_green_chromosome, List.filter_cons, hfe, List.append_assoc]
      · rw [modifyAt_getD_ne _ _ _ _ _ hij]
        have hji : ¬ j = i := fun hh => hij hh.symm
        simp [List.filter_cons, hfe, hij, hji]

/-- The red pass adds 1 to `RedChromosome` per accepted candidate and
leaves `GreenChromosome` alone. -/
theorem filter_red_counters (dist : ν → ℚ × ℚ → ℚ) (closeness : ℚ) :
    ∀ (cands : List (ℚ × ℚ)) (cells : List (Cell ν)) (rc gc : ℕ),
      (filter_chromosomes dist closeness "red" cands cells rc gc).2 =
        (rc + (cands.filter
            (fun p => (firstEligible dist closeness p cells).isSome)).length, gc)
  | [], cells, rc, gc => by simp [filter_chromosomes]
  | p :: rest, cells, rc, gc => by
    rw [filter_chromosomes_cons, scan_cells_red_eq]
    cases hfe : firstEligible dist closeness p cells with
    | none =>
      rw [filter_red_counters dist closeness rest cells rc gc]
      simp [List.filter_cons, hfe]
    | some j =>
      rw [filter_red_counters dist closeness rest _ _ _]
      have hfilter :
          rest.filter (fun q => (firstEligible dist closeness q
              (modifyAt (Cell.add_red_chromosome p) j cells)).isSome) =
          rest.filter (fun q => (firstEligible dist closeness q cells).isSome) := by
        apply List.filter_congr
        intro q _
        rw [firstEligible_modifyAt dist closeness q
          (Cell.add_red_chromosome p) (fun _ => rfl) j cells]
      rw [hfilter]
      simp [List.filter_cons, hfe]
      omega

/-- Green-pass analogue of `filter_red_counters`. -/
theorem filter_green_counters (dist : ν → ℚ × ℚ → ℚ) (closeness : ℚ) :
    ∀ (cands : List (ℚ × ℚ)) (cells : List (Cell ν)) (rc gc : ℕ),
      (filter_chromosomes dist closeness "green" cands cells rc gc).2 =
        (rc, gc + (cands.filter
            (fun p => (firstEligible dist closeness p cells).isSome)).length)
  | [], cells, rc, gc => by simp [filter_chromosomes]
  | p :: rest, cells, rc, gc => by
    rw [filter_chromosomes_cons, scan_cells_green_eq]
    cases hfe : firstEligible dist closeness p cells with
    | none =>
      rw [filter_green_counters dist closeness rest cells rc gc]
      simp [List.filter_cons, hfe]
    | some j =>
      rw [filter_green_counters dist closeness rest _ _ _]
      have hfilter :
          rest.filter (fun q => (firstEligible dist closeness q
              (modifyAt (Cell.add_green_chromosome p) j cells)).isSome) =
          rest.filter (fun q => (firstEligible dist closeness q cells).isSome) := by
        apply List.filter_congr
        intro q _
        rw [firstEligible_modifyAt dist closeness q
          (Cell.add_green_chromosome p) (fun _ => rfl) j cells]
      rw [hfilter]
      simp [List.filter_cons, hfe]
      omega

/-! ### Totals over the registry -/

/-- Sum of red list lengths across the registry. -/
def total_red (cells : List (Cell ν)) : ℕ :=
  (cells.map (fun c => c.red_chromosomes.length)).sum

/-- Sum of green list lengths across the registry. -/
def total_green (cells : List (Cell ν)) : ℕ :=
  (cells.map (fun c => c.green_chromosomes.length)).sum

theorem total_red_modifyAt_add_red (p : ℚ × ℚ) :
    ∀ (j : ℕ) (cells : List (Cell ν)), j < cells.length →
      total_red (modifyAt (Cell.add_red_chromosome p) j cells) = total_red cells + 1
  | _, [], h => by simp at h
  | 0, c :: rest, _ => by
    simp [modifyAt, total_red, Cell.add_red_chromosome]
    omega
  | j + 1, c :: rest, h => by
    simp only [modifyAt, total_red, List.map_cons, List.sum_cons]
    have := total_red_modifyAt_add_red p j rest (Nat.lt_of_succ_lt_succ h)
    simp only [total_red] at this
    omega

theorem total_green_modifyAt_add_red (p : ℚ × ℚ) :
    ∀ (j : ℕ) (cells : List (Cell ν)),
      total_green (modifyAt (Cell.add_red_chromosome p) j cells) = total_green cells
  | _, [] => by simp [modifyAt]
  | 0, c :: rest => by simp [modifyAt, total_green, Cell.add_red_chromosome]
  | j + 1, c :: rest => by
    simp only [modifyAt, total_green, List.map_cons, List.sum_cons]
    have := total_green_modifyAt_add_red p j rest
    simp only [total_green] at this
    omega

theorem total_green_modifyAt_add_green (p : ℚ × ℚ) :
    ∀ (j : ℕ) (cells : List (Cell ν)), j < cells.length →
      total_green (modifyAt (Cell.add_green_chromosome p) j cells) = total_green cells + 1
  | _, [], h => by simp at h
  | 0, c :: rest, _ => by
    simp [modifyAt, total_green, Cell.add_green_chromosome]
    omega
  | j + 1, c :: rest, h => by
    simp only [modifyAt, total_green, List.map_cons, List.sum_cons]
    have := total_green_modifyAt_add_green p j rest (Nat.lt_of_succ_lt_succ h)
    simp only [total_green] at this
    omega

theorem total_red_modifyAt_add_green (p : ℚ × ℚ) :
    ∀ (j : ℕ) (cells : List (Cell ν)),
      total_red (modifyAt (Cell.add_green_chromosome p) j cells) = total_red cells
  | _, [] => by simp [modifyAt]
  | 0, c :: rest => by simp [modifyAt, total_red, Cell.add_green_chromosome]
  | j + 1, c :: rest => by
    simp only [modifyAt, total_red, List.map_cons, List.sum_cons]
    have := total_red_modifyAt_add_green p j rest
    simp only [total_red] at this
    omega

/-- The red pass grows the total red count by exactly the number of
accepted candidates and leaves the green totals unchanged. -/
theorem filter_red_total_red (dist : ν → ℚ × ℚ → ℚ) (closeness : ℚ) :
    ∀ (cands : List (ℚ × ℚ)) (cells : List (Cell ν)) (rc gc : ℕ),
      total_red (filter_chromosomes dist closeness "red" cands cells rc gc).1 =
        total_red cells + (cands.filter
          (fun p => (firstEligible dist closeness p cells).isSome)).length
  | [], cells, rc, gc => by simp [filter_chromosomes]
  | p :: rest, cells, rc, gc => by
    rw [filter_chromosomes_cons, scan_cells_red_eq]
    cases hfe : firstEligible dist closeness p cells with
    | none =>
      rw [filter_red_total_red dist closeness rest cells rc gc]
      simp [List.filter_cons, hfe]
    | some j =>
      have hj := firstEligible_lt_length dist closeness p cells j hfe
      rw [filter_red_total_red dist closeness rest _ _ _]
      have hfilter :
          rest.filter (fun q => (firstEligible dist closeness q
              (modifyAt (Cell.add_red_chromosome p) j cells)).isSome) =
          rest.filter (fun q => (firstEligible dist closeness q cells).isSome) := by
        apply List.filter_congr
        intro q _
        rw [firstEligible_modifyAt dist closeness q
          (Cell.add_red_chromosome p) (fun _ => rfl) j cells]
      rw [hfilter, total_red_modifyAt_add_red p j cells hj]
      simp [List.filter_cons, hfe]
      omega

theorem filter_red_total_green (dist : ν → ℚ × ℚ → ℚ) (closeness : ℚ) :
    ∀ (cands : List (ℚ × ℚ)) (cells : List (Cell ν)) (rc gc : ℕ),
      total_green (filter_chromosomes dist closeness "red" cands cells rc gc).1 =
        total_green cells
  | [], cells, rc, gc => by simp [filter_chromosomes]
  | p :: rest, cells, rc, gc => by
    rw [filter_chromosomes_cons, scan_cells_red_eq]
    cases hfe : firstEligible dist closeness p cells with
    | none => exact filter_red_total_green dist closeness rest cells rc gc
    | some j =>
      rw [filter_red_total_green dist closeness rest _ _ _,
        total_green_modifyAt_add_red]

theorem filter_green_total_green (dist : ν → ℚ × ℚ → ℚ) (closeness : ℚ) :
    ∀ (cands : List (ℚ × ℚ)) (cells : List (Cell ν)) (rc gc : ℕ),
      total_green (filter_chromosomes dist closeness "green" cands cells rc gc).1 =
        total_green cells + (cands.filter
          (fun p => (firstEligible dist closeness p cells).isSome)).length
  | [], cells, rc, gc => by simp [filter_chromosomes]
  | p :: rest, cells, rc, gc => by
    rw [filter_chromosomes_cons, scan_cells_green_eq]
    cases hfe : firstEligible dist closeness p cells with
    | none =>
      rw [filter_green_total_green dist closeness rest cells rc gc]
      simp [List.filter_cons, hfe]
    | some j =>
      have hj := firstEligible_lt_length dist closeness p cells j hfe
      rw [filter_green_total_green dist closeness rest _ _ _]
      have hfilter :
          rest.filter (fun q => (firstEligible dist closeness q
              (modifyAt (Cell.add_green_chromosome p) j cells)).isSome) =
          rest.filter (fun q => (firstEligible dist closeness q cells).isSome) := by
        apply List.filter_congr
        intro q _
        rw [firstEligible_modifyAt dist closeness q
          (Cell.add_green_chromosome p) (fun _ => rfl) j cells]
      rw [hfilter, total_green_modifyAt_add_green p j cells hj]
      simp [List.filter_cons, hfe]
      omega

theorem filter_green_total_red (dist : ν → ℚ × ℚ → ℚ) (closeness : ℚ) :
    ∀ (cands : List (ℚ × ℚ)) (cells : List (Cell ν)) (rc gc : ℕ),
      total_red (filter_chromosomes dist closeness "green" cands cells rc gc).1 =
        total_red cells
  | [], cells, rc, gc => by simp [filter_chromosomes]
  | p :: rest, cells, rc, gc => by
    rw [filter_chromosomes_cons, scan_cells_green_eq]
    cases hfe : firstEligible dist closeness p cells with
    | none => exact filter_green_total_red dist closeness rest cells rc gc
    | some j =>
      rw [filter_green_total_red dist closeness rest _ _ _,
        total_red_modifyAt_add_green]

/-! ### Claim theorems for the assigner -/

/-- The chromosome list of the channel being filtered. -/
def chromList (chan : String) (c : Cell ν) : List (ℚ × ℚ) :=
  if chan = "red" then c.red_chromosomes else c.green_chromosomes

/-- The per-channel total over the registry. -/
def chromTotal (chan : String) (cells : List (Cell ν)) : ℕ :=
  if chan = "red" then total_red cells else total_green cells

/-- The class counter of a channel, as returned by the filter pass. -/
def chromCounter (chan : String) (counters : ℕ × ℕ) : ℕ :=
  if chan = "red" then counters.1 else counters.2

theorem total_red_eq_zero {cells : List (Cell ν)}
    (h : ∀ c ∈ cells, c.red_chromosomes = []) : total_red cells = 0 := by
  unfold total_red
  rw [List.sum_eq_zero]
  intro x hx
  rcases List.mem_map.mp hx with ⟨c, hc, rfl⟩
  rw [h c hc]
  rfl

theorem total_green_eq_zero {cells : List (Cell ν)}
    (h : ∀ c ∈ cells, c.green_chromosomes = []) : total_green cells = 0 := by
  unfold total_green
  rw [List.sum_eq_zero]
  intro x hx
  rcases List.mem_map.mp hx with ⟨c, hc, rfl⟩
  rw [h c hc]
  rfl

/-- C1: whenever a candidate point is accepted into a cell's chromosome
list by `__filter_chromosomes`, the signed distance from that point
(supplied to the geometry routine in `(col, row)` order) to that cell's
outer mask contour is strictly greater than the closeness threshold and
strictly positive; consequently, for any closeness threshold ≥ 0, a
candidate whose distance to the contour is ≤ 0 (on the boundary or
outside) is never accepted by that cell. -/
theorem C1_containment_and_border_exclusion {ν : Type}
    (dist : ν → ℚ × ℚ → ℚ) (closeness : ℚ) (chan : String)
    (cands : List (ℚ × ℚ)) (cells : List (Cell ν)) (rc gc : ℕ)
    (d0 : Cell ν) (i : ℕ) (p : ℚ × ℚ)
    (hchan : chan = "red" ∨ chan = "green")
    (hi : i < cells.length)
    (hnew : p ∈ chromList chan
      ((filter_chromosomes dist closeness chan cands cells rc gc).1.getD i d0))
    (hold : p ∉ chromList chan (cells.getD i d0)) :
    closeness < dist (cells.getD i d0).masked_area (p.2, p.1) ∧
      0 < dist (cells.getD i d0).masked_area (p.2, p.1) ∧
      (0 ≤ closeness → ¬ dist (cells.getD i d0).masked_area (p.2, p.1) ≤ 0) := by
  have hmem : p ∈ cands.filter
      (fun q => decide (firstEligible dist closeness q cells = some i)) := by
    rcases hchan with hc | hc <;> subst hc
    · rw [filter_red_getD dist closeness d0 cands cells rc gc i hi] at hnew
      simp only [chromList, if_pos rfl] at hnew hold
      rcases List.mem_append.mp hnew with hl | hr
      · exact absurd hl hold
      · exact hr
    · rw [filter_green_getD dist closeness d0 cands cells rc gc i hi] at hnew
      have hne : ("green" : String) ≠ "red" := by decide
      simp only [chromList, if_neg hne] at hnew hold
      rcases List.mem_append.mp hnew with hl | hr
      · exact absurd hl hold
      · exact hr
  have hfe : firstEligible dist closeness p cells = some i := by
    have := List.of_mem_filter hmem
    simpa using this
  have helig := firstEligible_eligibleB dist closeness p d0 cells i hfe
  simp only [eligibleB, Bool.and_eq_true, decide_eq_true_eq,
    Bool.not_eq_true', decide_eq_false_iff_not] at helig
  exact ⟨not_le.mp helig.2, helig.1,
    fun _ hle => absurd helig.1 (not_lt.mpr hle)⟩

/-- Concrete distance oracle for witnesses: every point is 5 units
inside every contour. -/
def distW : Unit → ℚ × ℚ → ℚ := fun _ _ => 5

/-- Concrete one-cell registry for witnesses. -/
def cellsW : List (Cell Unit) :=
  [{ masked_area := (), cell_type := .WHOLE,
     red_chromosomes := [], green_chromosomes := [] }]

/-- Default cell used with `List.getD` in witnesses. -/
def cellD : Cell Unit :=
  { masked_area := (), cell_type := .WHOLE,
    red_chromosomes := [], green_chromosomes := [] }

theorem C1_witness :
    (1 : ℚ) < distW (cellsW.getD 0 cellD).masked_area ((3 : ℚ), (2 : ℚ)) ∧
      (0 : ℚ) < distW (cellsW.getD 0 cellD).masked_area ((3 : ℚ), (2 : ℚ)) ∧
      ((0 : ℚ) ≤ 1 →
        ¬ distW (cellsW.getD 0 cellD).masked_area ((3 : ℚ), (2 : ℚ)) ≤ 0) :=
  C1_containment_and_border_exclusion distW 1 "red" [((2 : ℚ), (3 : ℚ))]
    cellsW 0 0 cellD 0 ((2 : ℚ), (3 : ℚ))
    (Or.inl rfl) (by decide) (by decide) (by decide)

/-- C2: in a single pass of `__filter_chromosomes` over a channel's
candidates, each candidate is appended to at most one cell's chromosome
list — the first cell in registry order for which it is eligible — so
every accepted point belongs to exactly one cell's list, the channel's
total list length grows by exactly the number of accepted candidates,
and (starting from the reset counters) the channel's counter equals
that accepted count. -/
theorem C2_first_match_partition {ν : Type}
    (dist : ν → ℚ × ℚ → ℚ) (closeness : ℚ) (chan : String)
    (cands : List (ℚ × ℚ)) (cells : List (Cell ν)) (d0 : Cell ν)
    (hchan : chan = "red" ∨ chan = "green") :
    (filter_chromosomes dist closeness chan cands cells 0 0).1.length = cells.length ∧
    (∀ i, i < cells.length →
      chromList chan
          ((filter_chromosomes dist closeness chan cands cells 0 0).1.getD i d0) =
        chromList chan (cells.getD i d0) ++
          cands.filter
            (fun p => decide (firstEligible dist closeness p cells = some i))) ∧
    chromTotal chan (filter_chromosomes dist closeness chan cands cells 0 0).1 =
      chromTotal chan cells +
        (cands.filter (fun p => (firstEligible dist closeness p cells).isSome)).length ∧
    chromCounter chan (filter_chromosomes dist closeness chan cands cells 0 0).2 =
      (cands.filter (fun p => (firstEligible dist closeness p cells).isSome)).length := by
  rcases hchan with hc | hc <;> subst hc
  · refine ⟨filter_chromosomes_length dist closeness "red" cands cells 0 0, ?_, ?_, ?_⟩
    · intro i hi
      rw [filter_red_getD dist closeness d0 cands cells 0 0 i hi]
      simp [chromList]
    · simp only [chromTotal, if_pos rfl]
      exact filter_red_total_red dist closeness cands cells 0 0
    · rw [filter_red_counters dist closeness cands cells 0 0]
      simp [chromCounter]
  · have hne : ("green" : String) ≠ "red" := by decide
    refine ⟨filter_chromosomes_length dist closeness "green" cands cells 0 0, ?_, ?_, ?_⟩
    · intro i hi
      rw [filter_green_getD dist closeness d0 cands cells 0 0 i hi]
      simp [chromList, if_neg hne]
    · simp only [chromTotal, if_neg hne]
      exact filter_green_total_green dist closeness cands cells 0 0
    · rw [filter_green_counters dist closeness cands cells 0 0]
      simp [chromCounter, if_neg hne]

theorem C2_witness :
    (filter_chromosomes distW 1 "red" [((2 : ℚ), (3 : ℚ))] cellsW 0 0).1.length =
        cellsW.length ∧
      chromList "red"
          ((filter_chromosomes distW 1 "red" [((2 : ℚ), (3 : ℚ))] cellsW 0 0).1.getD
            0 cellD) =
        chromList "red" (cellsW.getD 0 cellD) ++
          [((2 : ℚ), (3 : ℚ))].filter
            (fun p => decide (firstEligible distW 1 p cellsW = some 0)) ∧
      chromCounter "red"
          (filter_chromosomes distW 1 "red" [((2 : ℚ), (3 : ℚ))] cellsW 0 0).2 =
        ([((2 : ℚ), (3 : ℚ))].filter
          (fun p => (firstEligible distW 1 p cellsW).isSome)).length := by
  have h := C2_first_match_partition distW 1 "red" [((2 : ℚ), (3 : ℚ))] cellsW cellD
    (Or.inl rfl)
  exact ⟨h.1, h.2.1 0 (by decide), h.2.2.2⟩

/-- C10: if the registry is empty when `detect_chromosomes` runs, no
candidate is accepted, no list is modified, both class counters end at
zero, and the run is an ordinary total computation (no error). -/
theorem C10_detect_on_empty_registry {ν : Type}
    (dist : ν → ℚ × ℚ → ℚ) (blur : RGBImage → RGBImage)
    (s : DetectorState ν) (h : s.cells = []) :
    detect_chromosomes dist blur s =
      { image := s.image, cells := [], RedChromosome := 0, GreenChromosome := 0 } := by
  simp [detect_chromosomes, h, filter_chromosomes_nil_cells]

theorem C10_witness :
    detect_chromosomes distW id
        { image := [], cells := [], RedChromosome := 7,
          GreenChromosome := 9 } =
      { image := [], cells := [], RedChromosome := 0, GreenChromosome := 0 } :=
  C10_detect_on_empty_registry distW id
    { image := [], cells := [], RedChromosome := 7, GreenChromosome := 9 } rfl

/-- C4 (amended): the class counters are reset at the start of every
`detect_chromosomes` call (the result does not depend on their previous
values), and after the call each counter equals the number of
candidates accepted during *that call*, i.e. the growth of the summed
per-cell list lengths; the counter equals the total summed list length
exactly when the corresponding per-cell lists were empty before the
call (as after a fresh `find_cells`). -/
theorem C4_counters_per_call {ν : Type}
    (dist : ν → ℚ × ℚ → ℚ) (blur : RGBImage → RGBImage) (s : DetectorState ν) :
    (∀ rc0 gc0 : ℕ,
      detect_chromosomes dist blur
          { s with RedChromosome := rc0, GreenChromosome := gc0 } =
        detect_chromosomes dist blur s) ∧
    total_red (detect_chromosomes dist blur s).cells =
      total_red s.cells + (detect_chromosomes dist blur s).RedChromosome ∧
    total_green (detect_chromosomes dist blur s).cells =
      total_green s.cells + (detect_chromosomes dist blur s).GreenChromosome ∧
    ((∀ c ∈ s.cells, c.red_chromosomes = []) →
      (detect_chromosomes dist blur s).RedChromosome =
        total_red (detect_chromosomes dist blur s).cells) ∧
    ((∀ c ∈ s.cells, c.green_chromosomes = []) →
      (detect_chromosomes dist blur s).GreenChromosome =
        total_green (detect_chromosomes dist blur s).cells) := by
  have hreset : ∀ rc0 gc0 : ℕ,
      detect_chromosomes dist blur
          { s with RedChromosome := rc0, GreenChromosome := gc0 } =
        detect_chromosomes dist blur s := by
    intro rc0 gc0
    simp only [detect_chromosomes]
  set rcands := get_chromosome_candidates
    (channel 0 (unsharp_mask 5 100 s.image (blur s.image))) with hrc
  set gcands := get_chromosome_candidates
    (channel 1 (unsharp_mask 5 100 s.image (blur s.image))) with hgc
  set st1 := filter_chromosomes dist 1 "red" rcands s.cells 0 0 with hst1
  set st2 := filter_chromosomes dist 1 "green" gcands st1.1 st1.2.1 st1.2.2 with hst2
  have hdet : detect_chromosomes dist blur s =
      { image := s.image, cells := st2.1,
        RedChromosome := st2.2.1, GreenChromosome := st2.2.2 } := rfl
  have hcr : st1.2 = (0 + (rcands.filter
      (fun p => (firstEligible dist 1 p s.cells).isSome)).length, 0) := by
    rw [hst1, filter_red_counters]
  have hcg : st2.2 = (st1.2.1, st1.2.2 + (gcands.filter
      (fun p => (firstEligible dist 1 p st1.1).isSome)).length) := by
    rw [hst2, filter_green_counters]
  have htr : total_red st2.1 = total_red s.cells + (rcands.filter
      (fun p => (firstEligible dist 1 p s.cells).isSome)).length := by
    rw [hst2, filter_green_total_red, hst1, filter_red_total_red]
  have htg : total_green st2.1 = total_green s.cells + (gcands.filter
      (fun p => (firstEligible dist 1 p st1.1).isSome)).length := by
    rw [hst2, filter_green_total_green, hst1, filter_red_total_green]
  refine ⟨hreset, ?_, ?_, ?_, ?_⟩
  · rw [hdet]
    dsimp only
    rw [htr, hcg, hcr]
    simp
  · rw [hdet]
    dsimp only
    rw [htg, hcg, hcr]
    simp
  · intro hempty
    rw [hdet]
    dsimp only
    rw [htr, hcg, hcr, total_red_eq_zero hempty]
  · intro hempty
    rw [hdet]
    dsimp only
    rw [htg, hcg, hcr, total_green_eq_zero hempty]

/-- Concrete 5×5 image for the `detect_chromosomes` witnesses: a single
bright red pixel at (2, 2). -/
def imgW : RGBImage :=
  [[(0, 0, 0), (0, 0, 0), (0, 0, 0), (0, 0, 0), (0, 0, 0)],
   [(0, 0, 0), (0, 0, 0), (0, 0, 0), (0, 0, 0), (0, 0, 0)],
   [(0, 0, 0), (0, 0, 0), (200, 0, 0), (0, 0, 0), (0, 0, 0)],
   [(0, 0, 0), (0, 0, 0), (0, 0, 0), (0, 0, 0), (0, 0, 0)],
   [(0, 0, 0), (0, 0, 0), (0, 0, 0), (0, 0, 0), (0, 0, 0)]]

/-- Concrete starting state: the image above, one cell, counters 0. -/
def s0W : DetectorState Unit :=
  { image := imgW, cells := cellsW, RedChromosome := 0, GreenChromosome := 0 }

theorem C4_witness :
    (detect_chromosomes distW id s0W).RedChromosome =
        total_red (detect_chromosomes distW id s0W).cells ∧
      (detect_chromosomes distW id s0W).GreenChromosome =
        total_green (detect_chromosomes distW id s0W).cells := by
  have h := C4_counters_per_call distW id s0W
  exact ⟨h.2.2.2.1 (by decide), h.2.2.2.2 (by decide)⟩

/-- C4 counterexample: running `detect_chromosomes` a second time
without rebuilding the registry appends the same accepted candidate
again while the counter restarts from zero, so afterwards the red
counter (1) differs from the summed red list lengths (2). -/
theorem C4_counterexample :
    (detect_chromosomes distW id (detect_chromosomes distW id s0W)).RedChromosome ≠
      total_red (detect_chromosomes distW id
        (detect_chromosomes distW id s0W)).cells := by
  decide

/-! ### Claim theorems for `__unsharp_mask` -/

/-- C3 (amended): for uint8 pixels and any threshold > 0, the
low-contrast check compares `(image - blur) mod 256` — the uint8
wrap-around difference that numpy actually computes, *not* the true
absolute difference — against the threshold: the pixel is reverted to
the original exactly when that wrapped difference is below the
threshold, and otherwise receives the sharpened value.  The wrapped
difference agrees with the true absolute difference only when
`image ≥ blur`. -/
theorem C3_low_contrast_mask_is_modular (amount : ℚ) (threshold i b : ℕ)
    (hi : i ≤ 255) (hb : b ≤ 255) (ht : 0 < threshold) :
    ((i + 256 - b) % 256 < threshold →
      unsharp_mask_pixel amount threshold i b = i) ∧
    (¬ (i + 256 - b) % 256 < threshold →
      unsharp_mask_pixel amount threshold i b = sharpen_pixel amount i b) ∧
    (b ≤ i → (i + 256 - b) % 256 = i - b) := by
  refine ⟨?_, ?_, ?_⟩
  · intro hlt
    simp [unsharp_mask_pixel, ht, hlt]
  · intro hge
    unfold unsharp_mask_pixel
    rw [if_neg]
    intro hand
    exact hge hand.2
  · intro hbi
    have : i + 256 - b = (i - b) + 256 := by omega
    rw [this, Nat.add_mod_right]
    exact Nat.mod_eq_of_lt (by omega)

theorem C3_witness :
    (unsharp_mask_pixel 5 100 150 140 = 150) ∧
      (unsharp_mask_pixel 5 100 150 20 = sharpen_pixel 5 150 20) := by
  have h1 := C3_low_contrast_mask_is_modular 5 100 150 140 (by decide) (by decide)
    (by decide)
  have h2 := C3_low_contrast_mask_is_modular 5 100 150 20 (by decide) (by decide)
    (by decide)
  exact ⟨h1.1 (by decide), h2.2.1 (by decide)⟩

/-- C3 counterexample: the pixel `image = 10`, `blur = 20` has true
absolute difference 10 < 100, yet it is *not* reverted: the uint8
subtraction wraps to 246, the mask is false, and the output is the
clamped sharpened value 0 instead of the original 10. -/
theorem C3_counterexample :
    ((10 : ℤ) - 20).natAbs < 100 ∧ unsharp_mask_pixel 5 100 10 20 ≠ 10 := by
  constructor
  · decide
  · decide

/-- C6: the unsharp-mask output always lies in [0, 255] (the sharpened
combination is clamped before rounding, and reverted pixels are uint8
inputs), and with threshold = 0 the low-contrast branch is skipped
entirely: every pixel receives the sharpened value. -/
theorem C6_unsharp_bounds_and_zero_threshold (amount : ℚ) (threshold i b : ℕ)
    (hi : i ≤ 255) :
    unsharp_mask_pixel amount threshold i b ≤ 255 ∧
      unsharp_mask_pixel amount 0 i b = sharpen_pixel amount i b := by
  constructor
  · unfold unsharp_mask_pixel
    split
    · exact hi
    · exact sharpen_pixel_le_255 amount i b
  · simp [unsharp_mask_pixel]

theorem C6_witness :
    unsharp_mask_pixel 5 100 10 20 ≤ 255 ∧
      unsharp_mask_pixel 5 0 10 20 = sharpen_pixel 5 10 20 :=
  C6_unsharp_bounds_and_zero_threshold 5 100 10 20 (by decide)

/-! ### Claim theorems for `find_cells` -/

theorem flatMap_dets_nil {μ : Type} :
    ∀ (preds : List (Prediction μ)), (∀ p ∈ preds, p.dets = []) →
      preds.flatMap (fun p => p.dets) = ([] : List (Detection μ))
  | [], _ => rfl
  | p :: rest, h => by
    rw [List.flatMap_cons, h p (List.mem_cons_self p rest),
      flatMap_dets_nil rest (fun q hq => h q (List.mem_cons_of_mem p hq))]
    rfl

theorem cleared_eq_nil {ν : Type} (prior : List (Cell ν)) :
    (if prior.isEmpty then prior else []) = ([] : List (Cell ν)) := by
  by_cases hp : prior.isEmpty
  · simp [hp, List.isEmpty_iff.mp hp]
  · simp [hp]

/-- C5: `find_cells` first discards any previously held cells, so its
result does not depend on the prior registry; with zero detections it
returns the valid output `some ([], 0, 0)` — empty registry and
`(exploded, whole) = (0, 0)` — rather than an error. -/
theorem C5_registry_rebuilt {μ ν : Type} (maskOf : μ → ν) (names : ℕ → String)
    (prior : List (Cell ν)) (preds : List (Prediction μ)) :
    (find_cells maskOf names prior preds = find_cells maskOf names [] preds) ∧
    ((∀ p ∈ preds, p.dets = []) →
      find_cells maskOf names prior preds = some ([], 0, 0)) := by
  constructor
  · unfold find_cells
    rw [cleared_eq_nil prior]
    simp
  · intro hdets
    unfold find_cells
    rw [cleared_eq_nil prior, flatMap_dets_nil preds hdets]
    rfl

theorem C5_witness :
    (find_cells (fun u : Unit => u) (fun _ => "") cellsW
        [({ dets := [] } : Prediction Unit)] =
      find_cells (fun u : Unit => u) (fun _ => "") []
        [({ dets := [] } : Prediction Unit)]) ∧
      find_cells (fun u : Unit => u) (fun _ => "") cellsW
          [({ dets := [] } : Prediction Unit)] =
        some ([], 0, 0) := by
  have h := C5_registry_rebuilt (fun u : Unit => u) (fun _ => "") cellsW
    [({ dets := [] } : Prediction Unit)]
  exact ⟨h.1, h.2 (by simp)⟩

theorem build_cells_spec {μ ν : Type} (maskOf : μ → ν) :
    ∀ (dets : List (Detection μ)) (cs : List (Cell ν)),
      build_cells maskOf dets = some cs →
      cs.length = dets.length ∧
      ∀ (i : ℕ) (d0 : Cell ν) (dd : Detection μ), i < dets.length →
        CellType.ofValue (dets.getD i dd).cls = some (cs.getD i d0).cell_type
  | [], cs, h => by
    cases h
    exact ⟨rfl, fun i d0 dd hi => absurd hi (by simp)⟩
  | d :: rest, cs, h => by
    simp only [build_cells] at h
    cases ht : CellType.ofValue d.cls with
    | none => rw [ht] at h; cases h
    | some t =>
      rw [ht] at h
      cases hb : build_cells maskOf rest with
      | none => rw [hb] at h; cases h
      | some cs0 =>
        rw [hb] at h
        cases h
        have ih := build_cells_spec maskOf rest cs0 hb
        refine ⟨by simp [ih.1], ?_⟩
        intro i d0 dd hi
        cases i with
        | zero => simpa using ht
        | succ n =>
          simpa using ih.2 n d0 dd (Nat.lt_of_succ_lt_succ hi)

theorem ofValue_mapping (n : ℕ) (t : CellType) (h : CellType.ofValue n = some t) :
    (t = CellType.EXPLODED ↔ n = 0) ∧ (t = CellType.WHOLE ↔ n = 1) := by
  match n, h with
  | 0, h => cases h; simp
  | 1, h => cases h; simp
  | n + 2, h => cases h

/-- C9: every cell appended to the registry by `find_cells` carries
classification EXPLODED exactly when its detection's class id is 0, and
WHOLE exactly when it is 1. -/
theorem C9_class_id_mapping {μ ν : Type} (maskOf : μ → ν) (names : ℕ → String)
    (prior : List (Cell ν)) (preds : List (Prediction μ))
    (cells : List (Cell ν)) (e w : ℕ)
    (h : find_cells maskOf names prior preds = some (cells, e, w)) :
    cells.length = (preds.flatMap (fun p => p.dets)).length ∧
    ∀ (i : ℕ) (d0 : Cell ν) (dd : Detection μ),
      i < (preds.flatMap (fun p => p.dets)).length →
      (((cells.getD i d0).cell_type = CellType.EXPLODED ↔
          ((preds.flatMap (fun p => p.dets)).getD i dd).cls = 0) ∧
       ((cells.getD i d0).cell_type = CellType.WHOLE ↔
          ((preds.flatMap (fun p => p.dets)).getD i dd).cls = 1)) := by
  simp only [find_cells, cleared_eq_nil prior] at h
  cases hb : build_cells maskOf (preds.flatMap (fun p => p.dets)) with
  | none => rw [hb] at h; cases h
  | some newCells =>
    rw [hb] at h
    simp only [List.nil_append] at h
    have hcells : newCells = cells := by
      have := congrArg (fun x => x.map Prod.fst) h
      simpa using this
    subst hcells
    have hs := build_cells_spec maskOf _ _ hb
    refine ⟨hs.1, ?_⟩
    intro i d0 dd hi
    exact ofValue_mapping _ _ (hs.2 i d0 dd hi)

/-- A two-detection oracle output for the C9 witness: class ids 0 and 1. -/
def preds9 : List (Prediction Unit) :=
  [{ dets := [{ mask := (), cls := 0 }, { mask := (), cls := 1 }] }]

/-- The registry `find_cells` builds from `preds9`. -/
def cells9 : List (Cell Unit) :=
  [{ masked_area := (), cell_type := .EXPLODED,
     red_chromosomes := [], green_chromosomes := [] },
   { masked_area := (), cell_type := .WHOLE,
     red_chromosomes := [], green_chromosomes := [] }]

theorem C9_witness :
    cells9.length = (preds9.flatMap (fun p => p.dets)).length ∧
      ((cells9.getD 0 cellD).cell_type = CellType.EXPLODED ↔
        ((preds9.flatMap (fun p => p.dets)).getD 0 { mask := (), cls := 5 }).cls = 0) ∧
      ((cells9.getD 1 cellD).cell_type = CellType.WHOLE ↔
        ((preds9.flatMap (fun p => p.dets)).getD 1 { mask := (), cls := 5 }).cls = 1) := by
  have h := C9_class_id_mapping (fun u : Unit => u) (fun _ => "") [] preds9
    cells9 0 0 (by decide)
  exact ⟨h.1, (h.2 0 cellD { mask := (), cls := 5 } (by decide)).1,
    (h.2 1 cellD { mask := (), cls := 5 } (by decide)).2⟩

/-! ### Claim theorems for `rgba2rgb` -/

theorem f2u8_natCast (n : ℕ) (h : n ≤ 255) : f2u8 (n : ℚ) = n := by
  unfold f2u8
  rw [Int.floor_natCast]
  rw [Int.emod_eq_of_lt (by exact_mod_cast Nat.zero_le n) (by exact_mod_cast Nat.lt_of_le_of_lt h (by norm_num))]
  simp

theorem composite_pixel_alpha_zero (bg : ℕ × ℕ × ℕ) (px : List ℕ)
    (ha : px.getD 3 0 = 0) (h1 : bg.1 ≤ 255) (h2 : bg.2.1 ≤ 255)
    (h3 : bg.2.2 ≤ 255) :
    composite_pixel bg px = [bg.1, bg.2.1, bg.2.2] := by
  simp only [composite_pixel, ha]
  simp only [Nat.cast_zero, zero_div, mul_zero, zero_add, sub_zero, one_mul]
  rw [f2u8_natCast bg.1 h1, f2u8_natCast bg.2.1 h2, f2u8_natCast bg.2.2 h3]

/-- C8: `rgba2rgb` returns a 3-channel input unchanged; a 4-channel
input is alpha-composited onto the background, so alpha = 0 everywhere
yields a solid background-color image; any other channel count fails
fast with the assertion message naming the expected channel count. -/
theorem C8_rgba2rgb_channels (background : ℕ × ℕ × ℕ) (ch : ℕ)
    (img : List (List (List ℕ))) :
    (ch = 3 → rgba2rgb background ch img = Except.ok img) ∧
    (ch = 4 → background.1 ≤ 255 → background.2.1 ≤ 255 →
      background.2.2 ≤ 255 →
      (∀ row ∈ img, ∀ px ∈ row, px.getD 3 0 = 0) →
      rgba2rgb background ch img = Except.ok (img.map (fun row => row.map
        (fun _ => [background.1, background.2.1, background.2.2])))) ∧
    (ch ≠ 3 → ch ≠ 4 →
      rgba2rgb background ch img = Except.error "RGBA image has 4 channels.") := by
  refine ⟨?_, ?_, ?_⟩
  · intro h
    subst h
    simp [rgba2rgb]
  · intro h h1 h2 h3 halpha
    subst h
    have hok : rgba2rgb background 4 img =
        Except.ok (img.map (fun row => row.map (composite_pixel background))) := by
      simp [rgba2rgb]
    rw [hok]
    simp only [Except.ok.injEq]
    apply List.map_congr_left
    intro row hrow
    apply List.map_congr_left
    intro px hpx
    exact composite_pixel_alpha_zero background px (halpha row hrow px hpx) h1 h2 h3
  · intro h3 h4
    simp [rgba2rgb, h3, h4]

theorem C8_witness :
    rgba2rgb (255, 255, 255) 3 [[[1, 2, 3]]] = Except.ok [[[1, 2, 3]]] ∧
      rgba2rgb (255, 255, 255) 4 [[[7, 8, 9, 0]]] =
        Except.ok [[[255, 255, 255]]] ∧
      rgba2rgb (255, 255, 255) 5 [[[1, 2, 3, 4, 5]]] =
        Except.error "RGBA image has 4 channels." := by
  have h3 := C8_rgba2rgb_channels (255, 255, 255) 3 [[[1, 2, 3]]]
  have h4 := C8_rgba2rgb_channels (255, 255, 255) 4 [[[7, 8, 9, 0]]]
  have h5 := C8_rgba2rgb_channels (255, 255, 255) 5 [[[1, 2, 3, 4, 5]]]
  refine ⟨h3.1 rfl, ?_, h5.2.2 (by decide) (by decide)⟩
  have h := h4.2.1 rfl (by decide) (by decide) (by decide) (by decide)
  simpa using h

/-! ### Claim theorem for the candidate extractor -/

theorem getRow_eq_getD : ∀ (g : List (List ℕ)) (r : ℕ), getRow g r = g.getD r []
  | [], r => by simp [getRow]
  | row :: rest, 0 => rfl
  | row :: rest, r + 1 => by
    simp only [getRow, List.getD_cons_succ]
    exact getRow_eq_getD rest r

theorem rowGet_eq_getD : ∀ (row : List ℕ) (c : ℕ), rowGet row c = row.getD c 0
  | [], c => by simp [rowGet]
  | v :: rest, 0 => rfl
  | v :: rest, c + 1 => by
    simp only [rowGet, List.getD_cons_succ]
    exact rowGet_eq_getD rest c

theorem rowGet_map (f : ℕ → ℕ) (hf : f 0 = 0) :
    ∀ (row : List ℕ) (c : ℕ), rowGet (row.map f) c = f (rowGet row c)
  | [], c => by simp [rowGet, hf]
  | v :: rest, 0 => rfl
  | v :: rest, c + 1 => by
    simp only [List.map_cons, rowGet]
    exact rowGet_map f hf rest c

theorem getRow_map_rows (f : List ℕ → List ℕ) (hf : f [] = []) :
    ∀ (g : List (List ℕ)) (r : ℕ), getRow (g.map f) r = f (getRow g r)
  | [], r => by simp [getRow, hf]
  | row :: rest, 0 => rfl
  | row :: rest, r + 1 => by
    simp only [List.map_cons, getRow]
    exact getRow_map_rows f hf rest r

/-- Pointwise description of the binary threshold (part of C7). -/
theorem gridGet_threshold_binary (t m : ℕ) (g : Grid) (r c : ℕ) :
    gridGet (threshold_binary t m g) r c =
      if t < gridGet g r c then m else 0 := by
  unfold gridGet threshold_binary
  rw [getRow_map_rows (List.map (fun v => if t < v then m else 0)) rfl g r]
  rw [rowGet_map (fun v => if t < v then m else 0) (by simp) (getRow g r) c]

theorem gridGet_mapIdxGrid (f : ℕ → ℕ → ℕ) (g : Grid) (r c : ℕ) :
    gridGet (mapIdxGrid f g) r c =
      if r < g.length ∧ c < (getRow g r).length then f r c else 0 := by
  unfold gridGet mapIdxGrid
  rw [getRow_eq_getD, rowGet_eq_getD]
  by_cases hr : r < g.length
  · have hrow : ((List.range g.length).map
        (fun r => (List.range (getRow g r).length).map (fun c => f r c))).getD r [] =
        (List.range (getRow g r).length).map (fun c => f r c) := by
      rw [List.getD_eq_getElem?_getD, List.getElem?_map, List.getElem?_range hr]
      rfl
    rw [hrow]
    by_cases hc : c < (getRow g r).length
    · rw [List.getD_eq_getElem?_getD, List.getElem?_map, List.getElem?_range hc]
      simp [hr, hc]
    · rw [List.getD_eq_getElem?_getD, List.getElem?_map,
        List.getElem?_eq_none (by simpa using le_of_not_lt hc)]
      simp [hc]
  · have hnone : ((List.range g.length).map
        (fun r => (List.range (getRow g r).length).map (fun c => f r c))).getD r [] = [] := by
      rw [List.getD_eq_getElem?_getD, List.getElem?_map,
        List.getElem?_eq_none (by simpa using le_of_not_lt hr)]
      rfl
    rw [hnone]
    simp [hr]

theorem mem_nbhdVals (g : Grid) (r c : ℕ) {x : ℕ} (hx : x ∈ nbhdVals g r c) :
    ∃ rr cc, x = gridGet g rr cc := by
  rcases List.mem_filterMap.mp hx with ⟨o, _, ho⟩
  by_cases hcond : 0 ≤ (r : ℤ) + o.1 ∧ (r : ℤ) + o.1 < (g.length : ℤ) ∧
      0 ≤ (c : ℤ) + o.2 ∧ (c : ℤ) + o.2 < ((getRow g ((r : ℤ) + o.1).toNat).length : ℤ)
  · rw [if_pos hcond] at ho
    exact ⟨((r : ℤ) + o.1).toNat, ((c : ℤ) + o.2).toNat, (Option.some.injEq _ _ ▸ ho).symm⟩
  · rw [if_neg hcond] at ho
    cases ho

theorem foldl_max_zero : ∀ (l : List ℕ), (∀ x ∈ l, x = 0) → l.foldl max 0 = 0
  | [], _ => rfl
  | v :: rest, h => by
    have hv : v = 0 := h v (List.mem_cons_self v rest)
    subst hv
    simpa using foldl_max_zero rest (fun x hx => h x (List.mem_cons_of_mem 0 hx))

theorem dilate_px_zero {g : Grid} (hg : ∀ r c, gridGet g r c = 0) (r c : ℕ) :
    dilate_px g r c = 0 := by
  unfold dilate_px
  apply foldl_max_zero
  intro x hx
  rcases mem_nbhdVals g r c hx with ⟨rr, cc, rfl⟩
  exact hg rr cc

theorem gridGet_morph_gradient_zero {g : Grid}
    (hg : ∀ r c, gridGet g r c = 0) (r c : ℕ) :
    gridGet (morph_gradient g) r c = 0 := by
  unfold morph_gradient
  rw [gridGet_mapIdxGrid]
  split
  · rw [dilate_px_zero hg r c]
    exact Nat.zero_sub _
  · rfl

theorem label_scan_all_zero {g : Grid} (hg : ∀ r c, gridGet g r c = 0) :
    ∀ (positions : List (ℕ × ℕ)) (lbl : Grid) (num : ℕ),
      label_scan g positions lbl num = (lbl, num)
  | [], lbl, num => rfl
  | (r, c) :: rest, lbl, num => by
    unfold label_scan
    rw [if_neg (by rw [hg r c]; simp)]
    exact label_scan_all_zero hg rest lbl num

theorem get_chromosome_candidates_empty {g : Grid}
    (h : ∀ r c, gridGet g r c ≤ 100) : get_chromosome_candidates g = [] := by
  have hz : ∀ r c, gridGet (threshold_binary 100 255 g) r c = 0 := by
    intro r c
    rw [gridGet_threshold_binary]
    exact if_neg (Nat.not_lt.mpr (h r c))
  have hm : ∀ r c,
      gridGet (morph_gradient (threshold_binary 100 255 g)) r c = 0 :=
    gridGet_morph_gradient_zero hz
  have hnum : (label_components (morph_gradient (threshold_binary 100 255 g))).2 = 0 := by
    unfold label_components
    rw [label_scan_all_zero hm]
  simp only [get_chromosome_candidates]
  rw [hnum]
  rfl

theorem center_of_mass_single (lbls : Grid) (i r c : ℕ) (hi : 0 < i)
    (h : positionsWithLabel lbls i = [(r, c)]) :
    center_of_mass lbls lbls i = ((r : ℚ), (c : ℚ)) := by
  have hmem : (r, c) ∈ positionsWithLabel lbls i := by
    rw [h]
    exact List.mem_singleton_self _
  have hval : gridGet lbls r c = i := by
    have hf := List.of_mem_filter hmem
    simpa using hf
  have hne : ((i : ℚ)) ≠ 0 := Nat.cast_ne_zero.mpr (Nat.pos_iff_ne_zero.mp hi)
  simp only [center_of_mass, h, List.map_cons, List.map_nil, List.sum_cons,
    List.sum_nil, add_zero, hval]
  rw [Prod.mk.injEq]
  constructor
  · rw [mul_comm, mul_div_assoc, div_self hne, mul_one]
  · rw [mul_comm, mul_div_assoc, div_self hne, mul_one]

/-- C7: the candidate extractor thresholds at cutoff 100 into a 0/255
image, applies the 3×3 morphological gradient (dilation − erosion),
labels 4-connected components of the result (background 0, via
`label_components`), and returns exactly one centroid per component in
label order; a channel with no pixel above the cutoff yields zero
candidates (an empty list, not an error), and a single-pixel
component's centroid is that pixel's (row, col) coordinates. -/
theorem C7_candidate_extraction :
    (∀ (g : Grid) (r c : ℕ),
      gridGet (threshold_binary 100 255 g) r c =
        if 100 < gridGet g r c then 255 else 0) ∧
    (∀ (g : Grid) (r c : ℕ), r < g.length → c < (getRow g r).length →
      gridGet (morph_gradient g) r c = dilate_px g r c - erode_px g r c) ∧
    (∀ g : Grid, (get_chromosome_candidates g).length =
      (label_components (morph_gradient (threshold_binary 100 255 g))).2) ∧
    (∀ g : Grid, (∀ r c, gridGet g r c ≤ 100) →
      get_chromosome_candidates g = []) ∧
    (∀ (lbls : Grid) (i r c : ℕ), 0 < i →
      positionsWithLabel lbls i = [(r, c)] →
      center_of_mass lbls lbls i = ((r : ℚ), (c : ℚ))) := by
  refine ⟨?_, ?_, ?_, ?_, ?_⟩
  · intro g r c
    exact gridGet_threshold_binary 100 255 g r c
  · intro g r c hr hc
    unfold morph_gradient
    rw [gridGet_mapIdxGrid]
    exact if_pos ⟨hr, hc⟩
  · intro g
    simp [get_chromosome_candidates]
  · intro g h
    exact get_chromosome_candidates_empty h
  · intro lbls i r c hi h
    exact center_of_mass_single lbls i r c hi h

theorem C7_witness :
    gridGet (threshold_binary 100 255 [[150]]) 0 0 = 255 ∧
      (get_chromosome_candidates [[200]]).length =
        (label_components (morph_gradient (threshold_binary 100 255 [[200]]))).2 ∧
      get_chromosome_candidates ([] : Grid) = [] ∧
      center_of_mass [[1]] [[1]] 1 = ((0 : ℚ), (0 : ℚ)) := by
  have h := C7_candidate_extraction
  refine ⟨?_, h.2.2.1 [[200]], ?_, ?_⟩
  · rw [h.1 [[150]] 0 0]
    decide
  · apply h.2.2.2.1
    intro r c
    cases r <;> simp [gridGet, getRow, rowGet]
  · exact h.2.2.2.2 [[1]] 1 0 0 (by decide) (by decide)
